import Mathlib

/-!
Verification of the googleSheetsLib repository.

Shallow embedding of the library's core logic:
* `src/src/utils.py` — range-address translation and validation
  (`column_to_number`, `number_to_column`, `xrange_to_grid_range`,
  `grid_range_to_xrange`, `validate_xrange`, `validate_grid_range`);
* `src/src/googleSheetsLib/client.py` — `ClientWrapper._ensure_valid_auth`,
  `ClientWrapper._refresh_or_login`, `ClientWrapper.execute`;
* `src/src/googleSheetsLib/models.py` — `Response` / `SheetsError`;
* `src/src/googleSheetsLib/core.py` — `Spreadsheet.execute_batch`,
  `Spreadsheet.__getitem__`, `Sheet.delete_rows`.

Python strings are modelled as `List Char` (ASCII fragment: the library's
range notation, dictionary keys and status codes are all ASCII; `str.upper`
and `str.strip` are modelled on the ASCII subset).  Python `dict`s whose key
sets matter are modelled as association lists in insertion order.  Python
exceptions are modelled with `Except PyErr`.  Remote calls are abstracted as
total functions supplied as parameters; wall-clock sleeping is modelled by
recording the slept durations.
-/

deriving instance DecidableEq for Except

namespace GSheets

/-! ### ASCII fragment of the Python `str` methods used by `utils.py` -/

/-- `[A-Z]` character class (by code point, as Python `ord`). -/
def isUpperAZ (c : Char) : Bool := 65 ≤ c.toNat && c.toNat ≤ 90

/-- `[0-9]` character class. -/
def isDigit09 (c : Char) : Bool := 48 ≤ c.toNat && c.toNat ≤ 57

/-- ASCII whitespace stripped by Python `str.strip`. -/
def isPyWs (c : Char) : Bool := c.toNat = 32 || (9 ≤ c.toNat && c.toNat ≤ 13)

/-- One character of Python `str.upper` (ASCII subset). -/
def upperChar (c : Char) : Char :=
  if 97 ≤ c.toNat && c.toNat ≤ 122 then Char.ofNat (c.toNat - 32) else c

/-- Python `str.upper` (ASCII subset). -/
def pyUpper (s : List Char) : List Char := s.map upperChar

/-- Python `str.strip` (ASCII whitespace). -/
def pyStrip (s : List Char) : List Char :=
  ((s.dropWhile isPyWs).reverse.dropWhile isPyWs).reverse

/-- Python `s.split('!')[-1]`: the suffix after the last `'!'`
(the whole string when no `'!'` occurs), exactly the transformation
`if '!' in s: s = s.split('!')[-1]` performs. -/
def afterBang (s : List Char) : List Char :=
  (s.reverse.takeWhile (fun c => c ≠ '!')).reverse

/-- Python `s.split(':')` (keeps empty parts). -/
def splitColonAux : List Char → List Char → List (List Char)
  | [], cur => [cur.reverse]
  | c :: cs, cur =>
    if c = ':' then cur.reverse :: splitColonAux cs []
    else splitColonAux cs (c :: cur)

def splitColon (s : List Char) : List (List Char) := splitColonAux s []

/-- Python `int(...)` on a string of ASCII digits (the only strings the
library ever feeds to `int`): positional decimal value. -/
def digitVal (c : Char) : Nat := c.toNat - 48

def parseDigits (s : List Char) : Nat := s.foldl (fun a c => 10 * a + digitVal c) 0

/-- Decimal printing of a natural number, fuelled so that it is structurally
recursive (the fuel `n+1` always suffices). Mirrors Python's `str`/f-string
rendering of a non-negative `int`. -/
def printNatGo : Nat → Nat → List Char
  | 0, _ => []
  | f + 1, n =>
    if n < 10 then [Char.ofNat (48 + n)]
    else printNatGo f (n / 10) ++ [Char.ofNat (48 + n % 10)]

def printNat (n : Nat) : List Char := printNatGo (n + 1) n

/-- f-string rendering of a Python `int`. -/
def printInt (n : Int) : List Char :=
  if n < 0 then '-' :: printNat n.natAbs else printNat n.toNat

/-- Python `re.findall(pattern, s)` for a single-character-class `+` pattern:
the maximal runs of characters satisfying `p`, in order. -/
def findallGo (p : Char → Bool) : List Char → List Char → List (List Char)
  | [], cur => if cur.isEmpty then [] else [cur.reverse]
  | c :: cs, cur =>
    if p c then findallGo p cs (c :: cur)
    else if cur.isEmpty then findallGo p cs []
    else cur.reverse :: findallGo p cs []

def findall (p : Char → Bool) (s : List Char) : List (List Char) := findallGo p s []

/-! ### `utils.column_to_number` and `utils.number_to_column` -/

/-- Accumulator for `column_to_number`.  The source computes
`x = Σ 26^(len-1-i) * (ord(s[i]) - 64)`; the Horner recursion below computes
the same positional sum. -/
def colAcc : Int → List Char → Int
  | x, [] => x
  | x, c :: cs => colAcc (x * 26 + ((c.toNat : Int) - 64)) cs

/-- `utils.column_to_number`: column-letter string to 0-based column index. -/
def column_to_number (column_string : List Char) : Int :=
  colAcc 0 column_string - 1

/-- `utils.number_to_column`.  The source's `while column_int > 25` loop body
sets `column_int` to `column_int - int(column_int/26)*26`, which is `< 26`,
so the loop executes at most once; the conditional below is that loop
unrolled.  `int(v/26)` truncates toward zero (`Int.tdiv`); for the
non-negative inputs the library produces this agrees with Python's
float-division-then-truncate. -/
def number_to_column (column_int : Int) : List Char :=
  if column_int > 25 then
    let q := Int.tdiv column_int 26
    let r := column_int - q * 26
    [Char.ofNat (65 + q - 1).toNat, Char.ofNat (65 + r).toNat]
  else
    [Char.ofNat (65 + column_int).toNat]

/-! ### `utils.validate_xrange`

The four regexes of the source are compiled by hand: each is an anchored
alternation-free pattern over the classes `[A-Z]` and `[0-9]` plus a single
`':'`, so full-match is equivalent to the structural tests below. -/

/-- The `col` group of `[A-Z]+[1-9][0-9]*`: the maximal leading letter run. -/
def lettersOf (t : List Char) : List Char := t.takeWhile isUpperAZ

/-- The `row` group of `[A-Z]+[1-9][0-9]*`: what follows the letter run. -/
def digitsOf (t : List Char) : List Char := t.dropWhile isUpperAZ

/-- Full match of `[1-9][0-9]*`. -/
def goodDigits (s : List Char) : Bool :=
  !s.isEmpty && s.all isDigit09 && decide (s.head? ≠ some '0')

/-- Full match of `[A-Z]+`. -/
def goodLetters (s : List Char) : Bool := !s.isEmpty && s.all isUpperAZ

/-- Full match of `[A-Z]+[1-9][0-9]*` (the `single` pattern, and each side of
the `full` pattern). -/
def matchCell (t : List Char) : Bool :=
  goodLetters (lettersOf t) && goodDigits (digitsOf t)

/-- Cases 2–4 of `validate_xrange` once the string has split into exactly two
`':'`-separated parts: full rectangle, column-only, row-only, in order. -/
def validate_xpair (a b : List Char) : Bool :=
  if matchCell a && matchCell b then
    decide (parseDigits (digitsOf a) ≤ parseDigits (digitsOf b)) &&
    decide (column_to_number (lettersOf a) ≤ column_to_number (lettersOf b))
  else if goodLetters a && goodLetters b then
    decide (column_to_number a ≤ column_to_number b)
  else if goodDigits a && goodDigits b then
    decide (parseDigits a ≤ parseDigits b)
  else false

/-- The shape tests of `utils.validate_xrange`, applied to the normalized
string, in the source's order: single cell, then the two-part shapes. -/
def validate_xcore (t : List Char) : Bool :=
  if matchCell t then true
  else
    match splitColon t with
    | [a, b] => validate_xpair a b
    | _ => false

/-- `utils.validate_xrange`: upper-case, strip, drop a `SheetName!` prefix,
then test the four accepted shapes. -/
def validate_xrange (xrange_str : List Char) : Bool :=
  validate_xcore (afterBang (pyStrip (pyUpper xrange_str)))

/-! ### Python dictionaries and exceptions -/

/-- Python exceptions raised along the modelled paths. -/
inductive PyErr
  | typeError
  | valueError
  | keyError
  | indexError
deriving DecidableEq

/-- A Python value stored in a grid-range dictionary: the library stores
`int`s there; any non-`int` (represented by a string) is what
`validate_grid_range`'s `isinstance` check rejects. -/
inductive PVal
  | pint (n : Int)
  | pstr (s : List Char)
deriving DecidableEq

def PVal.isInt : PVal → Bool
  | .pint _ => true
  | .pstr _ => false

/-- A Python `dict` with string keys, in insertion order (keys unique). -/
abbrev PyDict := List (String × PVal)

def dlookup (d : PyDict) (k : String) : Option PVal :=
  (d.find? (fun kv => kv.1 = k)).map (·.2)

/-- `grid_range[k]` where an `int` is expected.  (`keyError` and the
non-`int` comparison `typeError` are unreachable on the paths the library
takes, but are modelled for totality.) -/
def dgetInt (d : PyDict) (k : String) : Except PyErr Int :=
  match dlookup d k with
  | some (.pint n) => .ok n
  | some (.pstr _) => .error .typeError
  | none => .error .keyError

/-- Python `set(keys) == set(expected)` on key lists. -/
def sameKeySet (ks es : List String) : Bool :=
  ks.all (fun k => es.contains k) && es.all (fun e => ks.contains e)

/-! ### `utils.validate_grid_range` -/

def expectedFields (expect_sheet_id : Bool) : List String :=
  if expect_sheet_id then
    ["startRowIndex", "endRowIndex", "startColumnIndex", "endColumnIndex", "sheetId"]
  else
    ["startRowIndex", "endRowIndex", "startColumnIndex", "endColumnIndex"]

/-- The `for key, value in grid_range.items()` loop of `validate_grid_range`:
a non-`int` value under a key other than `sheetId` returns `False`
(`.ok false`); otherwise the loop only *prints* when `value < 0` and keeps
going — except that evaluating `value < 0` on a non-`int` `sheetId` value
raises `TypeError`.  `.ok true` means the loop fell through. -/
def checkValues : PyDict → Except PyErr Bool
  | [] => .ok true
  | (k, v) :: rest =>
    if k ≠ "sheetId" && !v.isInt then .ok false
    else
      match v with
      | .pint _ => checkValues rest
      | .pstr _ => .error .typeError

/-- `utils.validate_grid_range`.  Note: the source *prints* an
"out of bounds" message for a negative index but has no `return False`
there, so negative indices do not fail validation. -/
def validate_grid_range (grid_range : PyDict) (expect_sheet_id : Bool) :
    Except PyErr Bool :=
  if !sameKeySet (grid_range.map (·.1)) (expectedFields expect_sheet_id) then
    .ok false
  else
    match checkValues grid_range with
    | .error e => .error e
    | .ok false => .ok false
    | .ok true =>
      (dgetInt grid_range "startRowIndex").bind fun sr =>
      (dgetInt grid_range "endRowIndex").bind fun er =>
      if sr ≥ er then .ok false
      else
        (dgetInt grid_range "startColumnIndex").bind fun sc =>
        (dgetInt grid_range "endColumnIndex").bind fun ec =>
        if sc ≥ ec then .ok false else .ok true

/-! ### `utils.xrange_to_grid_range` and `utils.grid_range_to_xrange` -/

/-- An element of the padded token lists
`re.findall(...) + [0, 0]` — either a matched string or the literal
integer `0` used as padding. -/
inductive Tok
  | strT (s : List Char)
  | intT (n : Int)
deriving DecidableEq

/-- `column_to_number` applied to a token: on the integer padding Python
evaluates `len(0)` and raises `TypeError`. -/
def tokCol : Tok → Except PyErr Int
  | .strT s => .ok (column_to_number s)
  | .intT _ => .error .typeError

/-- `int(...)` applied to a token: digit-run strings parse, the integer
padding passes through. -/
def tokInt : Tok → Except PyErr Int
  | .strT s => .ok (parseDigits s : Nat)
  | .intT n => .ok n

/-- The dictionary literal `xrange_to_grid_range` builds. -/
def gridDict (sr er sc ec : Int) : PyDict :=
  [("startRowIndex", .pint sr), ("endRowIndex", .pint er),
   ("startColumnIndex", .pint sc), ("endColumnIndex", .pint ec)]

/-- `utils.xrange_to_grid_range`.  `.ok none` is the `return None` taken when
validation fails; `.error` is an escaped Python exception. -/
def xrange_to_grid_range (xrange : List Char) : Except PyErr (Option PyDict) :=
  if !validate_xrange xrange then .ok none
  else
    let columns := (findall isUpperAZ xrange).map Tok.strT ++ [Tok.intT 0, Tok.intT 0]
    let lines := (findall isDigit09 xrange).map Tok.strT ++ [Tok.intT 0, Tok.intT 0]
    (tokCol (columns.getD 0 (Tok.intT 0))).bind fun start_column =>
    (tokCol (columns.getD 1 (Tok.intT 0))).bind fun end_column_incl =>
    (tokInt (lines.getD 0 (Tok.intT 0))).bind fun line0 =>
    (tokInt (lines.getD 1 (Tok.intT 0))).bind fun line1 =>
    .ok (some (gridDict (line0 - 1) line1 start_column (end_column_incl + 1)))

/-- `utils.grid_range_to_xrange`.  Returns `''` (the empty string) when
`validate_grid_range` fails. -/
def grid_range_to_xrange (grid_range : PyDict) : Except PyErr (List Char) :=
  match validate_grid_range grid_range false with
  | .error e => .error e
  | .ok false => .ok []
  | .ok true =>
    (dgetInt grid_range "startRowIndex").bind fun sr =>
    (dgetInt grid_range "endRowIndex").bind fun er =>
    (dgetInt grid_range "startColumnIndex").bind fun sc =>
    (dgetInt grid_range "endColumnIndex").bind fun ec =>
    .ok (number_to_column sc ++ printInt (sr + 1) ++
         ':' :: (number_to_column (ec - 1) ++ printInt er))

/-! ### `models.Response` and `models.SheetsError`

The `date` timestamp field is omitted (wall-clock time), and the
`details` diagnostic payloads — dictionaries of local variables built by
`_get_dets` — are abstracted to `Option Unit` (present or absent); no claim
depends on their contents. -/

def pystr (s : String) : List Char := s.data

structure SheetsError where
  message : List Char
  code : Option Int
  reason : Option (List Char)
  function_name : Option (List Char)
  details : Option Unit
deriving DecidableEq

structure Response (γ : Type) where
  data : Option γ
  error : Option SheetsError
  ok : Bool
  details : Option Unit

/-- `Response.success`: `ok=True`, no error. -/
def Response.success (data : Option γ) (details : Option Unit) : Response γ :=
  { data := data, error := none, ok := true, details := details }

/-- `Response.fail`: `ok=False`, no data, populated `SheetsError` (the
`details` argument lands inside the error object, as in the source). -/
def Response.fail (message : List Char) (code : Option Int)
    (function_name : Option (List Char)) (details : Option Unit) : Response γ :=
  { data := none,
    error := some { message := message, code := code, reason := none,
                    function_name := function_name, details := details },
    ok := false, details := none }

/-- The failure-branch adjustment every operation pipeline performs:
`if response.error: response.error.details = details;
response.error.function_name = function_name`. -/
def setErrorMeta (r : Response γ) (fn : List Char) : Response γ :=
  match r.error with
  | some e => { r with error := some { e with details := some (), function_name := some fn } }
  | none => r

/-- The envelopes the library constructs: the two factory methods, the
success-branch adjustments (replace `data`, attach `details` — covering
`response.data = None`, the single-cell unwrap of `get_values`, and
`response.details = details`), and the failure-branch error enrichment. -/
inductive Produced {γ : Type} : Response γ → Prop
  | success (d : Option γ) (det : Option Unit) : Produced (Response.success d det)
  | fail (m : List Char) (c : Option Int) (f : Option (List Char)) (det : Option Unit) :
      Produced (Response.fail m c f det)
  | reshape (r : Response γ) (d : Option γ) (det : Option Unit) :
      r.ok = true → Produced r → Produced { r with data := d, details := det }
  | errmeta (r : Response γ) (fn : List Char) :
      r.ok = false → Produced r → Produced (setErrorMeta r fn)

/-! ### `client.ClientWrapper.execute`

The request descriptor is abstracted as a function from attempt index to
outcome: attempt `i` either returns a payload, raises `HttpError` with a
status, or raises some other exception.  The result records the returned
value (`none` models Python's implicit `return None` when the `for` loop is
exhausted), the number of `request.execute()` invocations, and the list of
`time.sleep` durations in order. -/

inductive AttemptOutcome (γ : Type)
  | succeeds (data : Option γ)
  | httpError (status : Int) (msg : List Char)
  | raises (msg : List Char)

def RETRY_STATUSES : List Int := [429, 500, 502, 503, 504]

/-- The `for attempt in range(max_retries)` loop, with `remaining` the number
of iterations left (`attempt + remaining = max_retries` at every call). -/
def executeGo (out : Nat → AttemptOutcome γ) (max_retries : Nat) :
    Nat → Nat → Option (Response γ) × Nat × List Nat
  | _, 0 => (none, 0, [])
  | attempt, rem + 1 =>
    match out attempt with
    | .succeeds d => (some (Response.success d none), 1, [])
    | .httpError st msg =>
      if RETRY_STATUSES.contains st && attempt < max_retries - 1 then
        let r := executeGo out max_retries (attempt + 1) rem
        (r.1, r.2.1 + 1, 2 ^ attempt :: r.2.2)
      else (some (Response.fail msg (some st) none none), 1, [])
    | .raises msg =>
      (some (Response.fail (pystr "Erro inesperado: " ++ msg) none none none), 1, [])

/-- `ClientWrapper.execute` (retry loop; the `_ensure_valid_auth` pre-flight
is modelled separately below). -/
def ClientWrapper.execute (out : Nat → AttemptOutcome γ) (max_retries : Nat) :
    Option (Response γ) × Nat × List Nat :=
  executeGo out max_retries 0 max_retries

/-! ### `client.ClientWrapper._ensure_valid_auth` / `_refresh_or_login`

The credential is abstracted to its three observable flags; the effects
record how many times the external collaborators are invoked:
`creds.refresh(...)`, the token-file write, and the interactive
`flow.run_local_server` flow. -/

structure Creds where
  valid : Bool
  expired : Bool
  refresh_token : Bool

structure ClientAuthState where
  creds : Option Creds
  /-- a client-config blob from `GOOGLE_SERVICE_CREDS` was parsed -/
  creds_dict : Bool
  /-- `token_path` is non-empty -/
  token_path : Bool

structure AuthEffects where
  refreshes : Nat
  persists : Nat
  interactive_flows : Nat
deriving DecidableEq

def noEffects : AuthEffects := { refreshes := 0, persists := 0, interactive_flows := 0 }

/-- `ClientWrapper._refresh_or_login`: refresh when possible, otherwise run
the interactive flow (from the env blob, or from the secrets file followed by
a best-effort token save). -/
def refresh_or_login (st : ClientAuthState) : AuthEffects :=
  if (st.creds.map (fun c => c.expired && c.refresh_token)).getD false then
    { refreshes := 1, persists := 0, interactive_flows := 0 }
  else if st.creds_dict then
    { refreshes := 0, persists := 0, interactive_flows := 1 }
  else
    { refreshes := 0, persists := if st.token_path then 1 else 0, interactive_flows := 1 }

/-- `ClientWrapper._ensure_valid_auth`: no credentials — return; invalid and
expired with a refresh token — `_refresh_or_login`; anything else — no-op. -/
def ensure_valid_auth (st : ClientAuthState) : AuthEffects :=
  match st.creds with
  | none => noEffects
  | some c =>
    if !c.valid then
      if c.expired && c.refresh_token then refresh_or_login st
      else noEffects
    else noEffects

/-! ### `core.Spreadsheet`: metadata lookups, subscript access, batch queue -/

/-- `Spreadsheet.execute_batch` over an abstract request type `ρ` and remote
executor `ex` (the `client.execute` call on the built `batchUpdate` request).
Returns the envelope, the new `batch_requests` queue, and the number of
remote calls made. -/
def Spreadsheet.execute_batch (batch_requests : List ρ) (ex : List ρ → Response γ) :
    Response γ × List ρ × Nat :=
  if batch_requests.isEmpty then
    (Response.fail (pystr "No request to execute.") none
      (some (pystr "Spreadsheet.execute_batch")) (some ()), batch_requests, 0)
  else
    let response := ex batch_requests
    if response.ok then
      ({ response with details := some () }, [], 1)
    else
      (setErrorMeta response (pystr "Spreadsheet.execute_batch"), batch_requests, 1)

/-! ### `core.Sheet.delete_rows` -/

theorem takeWhile_append_of_all {α} (p : α → Bool) (xs ys : List α)
    (h : ∀ c ∈ xs, p c = true) :
    (xs ++ ys).takeWhile p = xs ++ ys.takeWhile p := by
  induction xs with
  | nil => rfl
  | cons c cs ih =>
    simp only [List.cons_append, List.takeWhile_cons, h c (by simp)]
    simp only [if_true, List.cons.injEq, true_and]
    exact ih fun d hd => h d (by simp [hd])

theorem dropWhile_append_of_all {α} (p : α → Bool) (xs ys : List α)
    (h : ∀ c ∈ xs, p c = true) :
    (xs ++ ys).dropWhile p = ys.dropWhile p := by
  induction xs with
  | nil => rfl
  | cons c cs ih =>
    simp only [List.cons_append, List.dropWhile_cons, h c (by simp), if_true]
    exact ih fun d hd => h d (by simp [hd])

theorem takeWhile_cons_of_neg {α} (p : α → Bool) (c : α) (ys : List α)
    (h : p c = false) : (c :: ys).takeWhile p = [] := by
  simp [List.takeWhile_cons, h]

theorem dropWhile_cons_of_neg {α} (p : α → Bool) (c : α) (ys : List α)
    (h : p c = false) : (c :: ys).dropWhile p = c :: ys := by
  simp [List.dropWhile_cons, h]

theorem takeWhile_eq_self_of_all {α} (p : α → Bool) (xs : List α)
    (h : ∀ c ∈ xs, p c = true) : xs.takeWhile p = xs := by
  have := takeWhile_append_of_all p xs [] h
  simpa using this

theorem dropWhile_eq_self_of_none {α} (p : α → Bool) (xs : List α)
    (h : ∀ c ∈ xs, p c = false) : xs.dropWhile p = xs := by
  cases xs with
  | nil => rfl
  | cons c cs => exact dropWhile_cons_of_neg p c cs (h c (by simp))

/-! ### The normalization `afterBang ∘ pyStrip ∘ pyUpper` is the identity on
strings built from `[A-Z]`, `[0-9]` and `':'` -/

/-- Characters that may occur in an already-normalized textual range. -/
def rangeChar (c : Char) : Bool := isUpperAZ c || isDigit09 c || c = ':'

theorem rangeChar_toNat {c : Char} (h : rangeChar c = true) :
    48 ≤ c.toNat ∧ c.toNat ≤ 90 := by
  simp only [rangeChar, isUpperAZ, isDigit09, Bool.or_eq_true, Bool.and_eq_true,
    decide_eq_true_eq] at h
  rcases h with (h | h) | h
  · omega
  · omega
  · subst h; decide

theorem upperChar_eq_self {c : Char} (h : c.toNat < 97) : upperChar c = c := by
  simp only [upperChar]
  rw [if_neg]
  simp only [Bool.and_eq_true, decide_eq_true_eq, not_and]
  omega

theorem pyUpper_eq_self {s : List Char} (h : ∀ c ∈ s, rangeChar c = true) :
    pyUpper s = s := by
  simp only [pyUpper]
  rw [List.map_congr_left fun c hc => upperChar_eq_self (by have := rangeChar_toNat (h c hc); omega)]
  exact List.map_id s

theorem isPyWs_eq_false {c : Char} (h : 48 ≤ c.toNat) : isPyWs c = false := by
  simp only [isPyWs, Bool.or_eq_false_iff, Bool.and_eq_false_iff]
  constructor
  · simp only [decide_eq_false_iff_not]; omega
  · right; simp only [decide_eq_false_iff_not]; omega

theorem pyStrip_eq_self {s : List Char} (h : ∀ c ∈ s, rangeChar c = true) :
    pyStrip s = s := by
  have hws : ∀ c ∈ s, isPyWs c = false :=
    fun c hc => isPyWs_eq_false (rangeChar_toNat (h c hc)).1
  simp only [pyStrip]
  rw [dropWhile_eq_self_of_none _ _ hws,
      dropWhile_eq_self_of_none _ _ (fun c hc => hws c (List.mem_reverse.mp hc)),
      List.reverse_reverse]

theorem afterBang_eq_self {s : List Char} (h : ∀ c ∈ s, rangeChar c = true) :
    afterBang s = s := by
  simp only [afterBang]
  rw [takeWhile_eq_self_of_all _ _ (fun c hc => ?_), List.reverse_reverse]
  have h48 := (rangeChar_toNat (h c (List.mem_reverse.mp hc))).1
  simp only [decide_eq_true_eq]
  intro hc'
  subst hc'
  exact absurd h48 (by decide)

theorem normalize_eq_self {s : List Char} (h : ∀ c ∈ s, rangeChar c = true) :
    afterBang (pyStrip (pyUpper s)) = s := by
  rw [pyUpper_eq_self h, pyStrip_eq_self h, afterBang_eq_self h]

/-! ### Character-class facts -/

theorem rangeChar_of_upper {c : Char} (h : isUpperAZ c = true) : rangeChar c = true := by
  simp [rangeChar, h]

theorem rangeChar_of_digit {c : Char} (h : isDigit09 c = true) : rangeChar c = true := by
  simp [rangeChar, h]

theorem not_upper_of_digit {c : Char} (h : isDigit09 c = true) : isUpperAZ c = false := by
  simp only [isDigit09, Bool.and_eq_true, decide_eq_true_eq] at h
  simp only [isUpperAZ, Bool.and_eq_false_iff, decide_eq_false_iff_not]
  left; omega

theorem not_digit_of_upper {c : Char} (h : isUpperAZ c = true) : isDigit09 c = false := by
  simp only [isUpperAZ, Bool.and_eq_true, decide_eq_true_eq] at h
  simp only [isDigit09, Bool.and_eq_false_iff, decide_eq_false_iff_not]
  right; omega

theorem ne_colon_of_upper {c : Char} (h : isUpperAZ c = true) : c ≠ ':' := by
  intro hc; subst hc; exact absurd h (by decide)

theorem ne_colon_of_digit {c : Char} (h : isDigit09 c = true) : c ≠ ':' := by
  intro hc; subst hc; exact absurd h (by decide)

theorem goodLetters_ne_nil {s : List Char} (h : goodLetters s = true) : s ≠ [] := by
  simp only [goodLetters, Bool.and_eq_true, Bool.not_eq_true] at h
  simpa [List.isEmpty_iff] using h.1

theorem goodLetters_mem {s : List Char} (h : goodLetters s = true) :
    ∀ c ∈ s, isUpperAZ c = true := by
  simp only [goodLetters, Bool.and_eq_true, List.all_eq_true] at h
  exact h.2

theorem goodDigits_ne_nil {s : List Char} (h : goodDigits s = true) : s ≠ [] := by
  simp only [goodDigits, Bool.and_eq_true, Bool.not_eq_true] at h
  simpa [List.isEmpty_iff] using h.1.1

theorem goodDigits_mem {s : List Char} (h : goodDigits s = true) :
    ∀ c ∈ s, isDigit09 c = true := by
  simp only [goodDigits, Bool.and_eq_true, List.all_eq_true] at h
  exact h.1.2

/-! ### `splitColon` -/

theorem splitColonAux_append_of_none (xs ys cur : List Char)
    (h : ∀ c ∈ xs, c ≠ ':') :
    splitColonAux (xs ++ ys) cur = splitColonAux ys (xs.reverse ++ cur) := by
  induction xs generalizing cur with
  | nil => rfl
  | cons c cs ih =>
    simp only [List.cons_append, splitColonAux, if_neg (h c (by simp)), List.append_eq]
    rw [ih _ (fun d hd => h d (by simp [hd]))]
    simp

theorem splitColon_pair (a b : List Char)
    (ha : ∀ c ∈ a, c ≠ ':') (hb : ∀ c ∈ b, c ≠ ':') :
    splitColon (a ++ ':' :: b) = [a, b] := by
  simp only [splitColon]
  rw [splitColonAux_append_of_none a (':' :: b) [] ha]
  simp only [splitColonAux, if_pos rfl, List.append_nil, List.reverse_reverse]
  have := splitColonAux_append_of_none b [] [] hb
  simp only [List.append_nil] at this
  rw [this]
  simp [splitColonAux]

/-! ### `findall` -/

theorem findallGo_append_of_all (p : Char → Bool) (xs ys cur : List Char)
    (h : ∀ c ∈ xs, p c = true) :
    findallGo p (xs ++ ys) cur = findallGo p ys (xs.reverse ++ cur) := by
  induction xs generalizing cur with
  | nil => rfl
  | cons c cs ih =>
    simp only [List.cons_append, findallGo, h c (by simp), if_true, List.append_eq]
    rw [ih _ (fun d hd => h d (by simp [hd]))]
    simp

theorem findallGo_append_of_none (p : Char → Bool) (xs ys : List Char)
    (h : ∀ c ∈ xs, p c = false) :
    findallGo p (xs ++ ys) [] = findallGo p ys [] := by
  induction xs with
  | nil => rfl
  | cons c cs ih =>
    simp only [List.cons_append, findallGo, h c (by simp), List.isEmpty_nil, if_true,
      Bool.false_eq_true, if_false]
    exact ih fun d hd => h d (by simp [hd])

theorem findallGo_flush (p : Char → Bool) (xs ys cur : List Char)
    (hne : xs ≠ []) (h : ∀ c ∈ xs, p c = false) (hcur : cur ≠ []) :
    findallGo p (xs ++ ys) cur = cur.reverse :: findallGo p ys [] := by
  cases xs with
  | nil => exact absurd rfl hne
  | cons c cs =>
    simp only [List.cons_append, findallGo, h c (by simp), Bool.false_eq_true, if_false,
      List.isEmpty_iff, if_neg hcur, List.append_eq]
    rw [findallGo_append_of_none p cs ys (fun d hd => h d (by simp [hd]))]

theorem findallGo_nil (p : Char → Bool) (cur : List Char) (h : cur ≠ []) :
    findallGo p [] cur = [cur.reverse] := by
  simp [findallGo, List.isEmpty_iff, h]

/-- `re.findall(r'[A-Z]+', ...)` on a full-rectangle range. -/
theorem findall_upper_full (l1 d1 l2 d2 : List Char)
    (hl1 : goodLetters l1 = true) (hd1 : goodDigits d1 = true)
    (hl2 : goodLetters l2 = true) (hd2 : goodDigits d2 = true) :
    findall isUpperAZ (l1 ++ d1 ++ ':' :: (l2 ++ d2)) = [l1, l2] := by
  have hnl1 : ∀ c ∈ l1, isUpperAZ c = true := goodLetters_mem hl1
  have hnl2 : ∀ c ∈ l2, isUpperAZ c = true := goodLetters_mem hl2
  have hnd1 : ∀ c ∈ d1 ++ [':'], isUpperAZ c = false := by
    intro c hc
    rcases List.mem_append.mp hc with hc | hc
    · exact not_upper_of_digit (goodDigits_mem hd1 c hc)
    · simp only [List.mem_singleton] at hc; subst hc; decide
  have hrev1 : l1.reverse ≠ [] := by
    simpa using goodLetters_ne_nil hl1
  have hrev2 : l2.reverse ≠ [] := by
    simpa using goodLetters_ne_nil hl2
  simp only [findall, List.append_assoc]
  rw [findallGo_append_of_all _ l1 _ [] hnl1]
  have hassoc : d1 ++ ':' :: (l2 ++ d2) = (d1 ++ [':']) ++ (l2 ++ d2) := by simp
  rw [List.append_nil, hassoc,
      findallGo_flush _ _ _ _ (by simp) hnd1 hrev1,
      findallGo_append_of_all _ l2 _ [] hnl2, List.append_nil, List.reverse_reverse]
  have hd2' : ∀ c ∈ d2, isUpperAZ c = false :=
    fun c hc => not_upper_of_digit (goodDigits_mem hd2 c hc)
  have : findallGo isUpperAZ (d2 ++ []) l2.reverse = l2.reverse.reverse :: findallGo isUpperAZ [] [] :=
    findallGo_flush _ d2 [] _ (goodDigits_ne_nil hd2) hd2' hrev2
  simp only [List.append_nil] at this
  rw [this]
  simp [findallGo]

/-- `re.findall(r'[0-9]+', ...)` on a full-rectangle range. -/
theorem findall_digit_full (l1 d1 l2 d2 : List Char)
    (hl1 : goodLetters l1 = true) (hd1 : goodDigits d1 = true)
    (hl2 : goodLetters l2 = true) (hd2 : goodDigits d2 = true) :
    findall isDigit09 (l1 ++ d1 ++ ':' :: (l2 ++ d2)) = [d1, d2] := by
  have hnl1 : ∀ c ∈ l1, isDigit09 c = false :=
    fun c hc => not_digit_of_upper (goodLetters_mem hl1 c hc)
  have hnd1 : ∀ c ∈ d1, isDigit09 c = true := goodDigits_mem hd1
  have hnd2 : ∀ c ∈ d2, isDigit09 c = true := goodDigits_mem hd2
  have hmid : ∀ c ∈ ':' :: l2, isDigit09 c = false := by
    intro c hc
    rcases List.mem_cons.mp hc with hc | hc
    · subst hc; decide
    · exact not_digit_of_upper (goodLetters_mem hl2 c hc)
  have hrevd1 : d1.reverse ≠ [] := by simpa using goodDigits_ne_nil hd1
  have hrevd2 : d2.reverse ≠ [] := by simpa using goodDigits_ne_nil hd2
  simp only [findall, List.append_assoc]
  rw [findallGo_append_of_none _ l1 _ hnl1,
      findallGo_append_of_all _ d1 _ [] hnd1, List.append_nil]
  have hassoc : (':' :: (l2 ++ d2) : List Char) = (':' :: l2) ++ d2 := by simp
  rw [hassoc, findallGo_flush _ _ _ _ (by simp) hmid hrevd1, List.reverse_reverse]
  have := findallGo_append_of_all isDigit09 d2 [] [] hnd2
  simp only [List.append_nil] at this
  rw [this, findallGo_nil _ _ hrevd2, List.reverse_reverse]

/-! ### Decimal printing and parsing -/

theorem char_ofNat_toNat (c : Char) (h : c.toNat < 55296) : Char.ofNat c.toNat = c := by
  have hv : Nat.isValidChar c.toNat := Or.inl h
  rw [Char.ofNat, dif_pos hv]
  apply Char.ext
  rw [Char.ofNatAux]
  apply UInt32.ext
  simp [Char.toNat, UInt32.toNat, BitVec.toNat_ofNatLt]

theorem parseDigits_append_last (xs : List Char) (c : Char) :
    parseDigits (xs ++ [c]) = 10 * parseDigits xs + digitVal c := by
  simp [parseDigits, List.foldl_append]

theorem parseDigits_le_foldl (a : Nat) (xs : List Char) :
    a ≤ xs.foldl (fun a c => 10 * a + digitVal c) a := by
  induction xs generalizing a with
  | nil => exact le_refl a
  | cons c cs ih => exact le_trans (by omega) (ih (10 * a + digitVal c))

theorem goodDigits_head_pos {c : Char} {cs : List Char}
    (h : goodDigits (c :: cs) = true) : 1 ≤ digitVal c ∧ digitVal c ≤ 9 := by
  simp only [goodDigits, Bool.and_eq_true, List.all_eq_true, decide_eq_true_eq,
    List.head?_cons] at h
  have hd : isDigit09 c = true := h.1.2 c (by simp)
  simp only [isDigit09, Bool.and_eq_true, decide_eq_true_eq] at hd
  have hc0 : c ≠ '0' := by
    intro hc; exact h.2 (by rw [hc])
  have : c.toNat ≠ 48 := by
    intro hn
    apply hc0
    have : Char.ofNat c.toNat = Char.ofNat 48 := by rw [hn]
    rwa [char_ofNat_toNat c (by omega)] at this
  simp only [digitVal]
  omega

theorem goodDigits_parse_pos {d : List Char} (h : goodDigits d = true) :
    1 ≤ parseDigits d := by
  cases d with
  | nil => exact absurd h (by decide)
  | cons c cs =>
    have h1 := (goodDigits_head_pos h).1
    calc 1 ≤ digitVal c := h1
    _ = 10 * 0 + digitVal c := by omega
    _ ≤ parseDigits (c :: cs) := parseDigits_le_foldl _ cs

theorem digitVal_le_nine {c : Char} (h : isDigit09 c = true) : digitVal c ≤ 9 := by
  simp only [isDigit09, Bool.and_eq_true, decide_eq_true_eq] at h
  simp only [digitVal]
  omega

theorem char_ofNat_digitVal {c : Char} (h : isDigit09 c = true) :
    Char.ofNat (48 + digitVal c) = c := by
  simp only [isDigit09, Bool.and_eq_true, decide_eq_true_eq] at h
  have : 48 + digitVal c = c.toNat := by simp only [digitVal]; omega
  rw [this, char_ofNat_toNat c (by omega)]

theorem printNatGo_congr : ∀ n f g : Nat, n < f → n < g →
    printNatGo f n = printNatGo g n := by
  intro n
  induction n using Nat.strong_induction_on with
  | _ n ih =>
    intro f g hf hg
    match f, g with
    | f + 1, g + 1 =>
      simp only [printNatGo]
      by_cases h10 : n < 10
      · simp [h10]
      · simp only [if_neg h10]
        have hlt : n / 10 < n := Nat.div_lt_self (by omega) (by omega)
        rw [ih (n / 10) hlt f (n / 10 + 1) (by omega) (by omega),
            ih (n / 10) hlt g (n / 10 + 1) (by omega) (by omega)]

theorem printNatGo_eq_printNat {n f : Nat} (h : n < f) :
    printNatGo f n = printNat n :=
  printNatGo_congr n f (n + 1) h (by omega)

theorem goodDigits_append_last {xs : List Char} {c : Char}
    (h : goodDigits (xs ++ [c]) = true) (hne : xs ≠ []) : goodDigits xs = true := by
  obtain ⟨x, xs', rfl⟩ := List.exists_cons_of_ne_nil hne
  simp only [goodDigits, Bool.and_eq_true, List.all_eq_true, decide_eq_true_eq,
    Bool.not_eq_true', List.isEmpty_iff, List.cons_append, List.head?_cons,
    List.mem_cons, List.mem_append, List.mem_singleton] at h ⊢
  refine ⟨⟨by simp, ?_⟩, h.2⟩
  intro a ha
  apply h.1.2 a
  rcases ha with ha | ha
  · exact Or.inl ha
  · exact Or.inr (Or.inl ha)

/-- `str` of a parsed `[1-9][0-9]*` numeral gives the numeral back. -/
theorem printNat_parseDigits (d : List Char) (h : goodDigits d = true) :
    printNat (parseDigits d) = d := by
  induction d using List.reverseRecOn with
  | nil => exact absurd h (by decide)
  | append_singleton xs c ihx =>
    have hdig : isDigit09 c = true := goodDigits_mem h c (by simp)
    have hv9 : digitVal c ≤ 9 := digitVal_le_nine hdig
    rcases eq_or_ne xs [] with rfl | hxe
    · simp only [List.nil_append, parseDigits, List.foldl_cons, List.foldl_nil]
      simp only [printNat, printNatGo, Nat.mul_zero, Nat.zero_add]
      rw [if_pos (by omega)]
      rw [char_ofNat_digitVal hdig]
    · have hxs : goodDigits xs = true := goodDigits_append_last h hxe
      have hq := goodDigits_parse_pos hxs
      rw [parseDigits_append_last]
      set q := parseDigits xs with hqdef
      have hn10 : ¬ 10 * q + digitVal c < 10 := by omega
      simp only [printNat, printNatGo, if_neg hn10]
      have hdiv : (10 * q + digitVal c) / 10 = q := by omega
      have hmod : (10 * q + digitVal c) % 10 = digitVal c := by omega
      rw [hdiv, hmod, printNatGo_eq_printNat (by omega), ihx hxs,
          char_ofNat_digitVal hdig]

theorem printInt_coe_nat (n : Nat) : printInt (n : Int) = printNat n := by
  simp [printInt]

/-! ### Column-letter roundtrip (valid strings of length ≤ 2) -/

theorem upperAZ_toNat {c : Char} (h : isUpperAZ c = true) :
    65 ≤ c.toNat ∧ c.toNat ≤ 90 := by
  simpa only [isUpperAZ, Bool.and_eq_true, decide_eq_true_eq] using h

/-- `number_to_column` inverts `column_to_number` on valid column strings of
length ≤ 2 (for 3-letter columns it does not — see the C3 analysis). -/
theorem number_column_roundtrip (s : List Char) (h : goodLetters s = true)
    (hl : s.length ≤ 2) : number_to_column (column_to_number s) = s := by
  match s, hl with
  | [], _ => exact absurd h (by decide)
  | [a], _ =>
    obtain ⟨ha1, ha2⟩ := upperAZ_toNat (goodLetters_mem h a (by simp))
    simp only [column_to_number, colAcc, number_to_column]
    rw [if_neg (by omega)]
    have : (65 + (0 * 26 + ((a.toNat : Int) - 64) - 1)).toNat = a.toNat := by omega
    rw [this, char_ofNat_toNat a (by omega)]
  | [a, b], _ =>
    obtain ⟨ha1, ha2⟩ := upperAZ_toNat (goodLetters_mem h a (by simp))
    obtain ⟨hb1, hb2⟩ := upperAZ_toNat (goodLetters_mem h b (by simp))
    simp only [column_to_number, colAcc, number_to_column]
    set v : Int := (0 * 26 + ((a.toNat : Int) - 64)) * 26 + ((b.toNat : Int) - 64) - 1 with hv
    have hvval : v = 26 * ((a.toNat : Int) - 64) + ((b.toNat : Int) - 64) - 1 := by
      rw [hv]; ring
    rw [if_pos (by omega)]
    have htdiv : Int.tdiv v 26 = (a.toNat : Int) - 64 := by
      rw [Int.tdiv_eq_ediv (by omega) (by omega)]
      omega
    rw [htdiv]
    have h1 : (65 + ((a.toNat : Int) - 64) - 1).toNat = a.toNat := by omega
    have h2 : (65 + (v - ((a.toNat : Int) - 64) * 26)).toNat = b.toNat := by omega
    rw [h1, h2, char_ofNat_toNat a (by omega), char_ofNat_toNat b (by omega)]
  | _ :: _ :: _ :: _, hl => simp at hl

/-! ### `validate_xrange` on the four well-formed shapes -/

theorem goodDigits_false_of_colon {s : List Char} (h : ':' ∈ s) :
    goodDigits s = false := by
  simp only [goodDigits, Bool.and_eq_false_iff]
  left; right
  rw [List.all_eq_false]
  exact ⟨':', h, by decide⟩

theorem goodLetters_false_of_digit_head {c : Char} {cs : List Char}
    (h : isDigit09 c = true) : goodLetters (c :: cs) = false := by
  simp only [goodLetters, Bool.and_eq_false_iff]
  right
  rw [List.all_eq_false]
  exact ⟨c, by simp, by simp [not_upper_of_digit h]⟩

theorem lettersOf_cat {l d : List Char} (hl : goodLetters l = true)
    (hd : goodDigits d = true) : lettersOf (l ++ d) = l := by
  obtain ⟨c, cs, rfl⟩ := List.exists_cons_of_ne_nil (goodDigits_ne_nil hd)
  simp only [lettersOf]
  rw [takeWhile_append_of_all _ l _ (goodLetters_mem hl),
      takeWhile_cons_of_neg _ _ _ (not_upper_of_digit (goodDigits_mem hd c (by simp))),
      List.append_nil]

theorem digitsOf_cat {l d : List Char} (hl : goodLetters l = true)
    (hd : goodDigits d = true) : digitsOf (l ++ d) = d := by
  obtain ⟨c, cs, rfl⟩ := List.exists_cons_of_ne_nil (goodDigits_ne_nil hd)
  simp only [digitsOf]
  rw [dropWhile_append_of_all _ l _ (goodLetters_mem hl),
      dropWhile_cons_of_neg _ _ _ (not_upper_of_digit (goodDigits_mem hd c (by simp)))]

theorem matchCell_cat {l d : List Char} (hl : goodLetters l = true)
    (hd : goodDigits d = true) : matchCell (l ++ d) = true := by
  simp [matchCell, lettersOf_cat hl hd, digitsOf_cat hl hd, hl, hd]

theorem lettersOf_cat_colon {l : List Char} (hl : goodLetters l = true)
    (rest : List Char) : lettersOf (l ++ ':' :: rest) = l := by
  simp only [lettersOf]
  rw [takeWhile_append_of_all _ l _ (goodLetters_mem hl),
      takeWhile_cons_of_neg _ _ _ (by decide), List.append_nil]

theorem digitsOf_cat_colon {l : List Char} (hl : goodLetters l = true)
    (rest : List Char) : digitsOf (l ++ ':' :: rest) = ':' :: rest := by
  simp only [digitsOf]
  rw [dropWhile_append_of_all _ l _ (goodLetters_mem hl),
      dropWhile_cons_of_neg _ _ _ (by decide)]

theorem matchCell_false_of_colon_tail {l rest : List Char}
    (hl : goodLetters l = true) : matchCell (l ++ ':' :: rest) = false := by
  simp only [matchCell, Bool.and_eq_false_iff]
  right
  rw [digitsOf_cat_colon hl]
  exact goodDigits_false_of_colon (by simp)

theorem matchCell_false_of_digit_head {d rest : List Char}
    (hd : goodDigits d = true) : matchCell (d ++ rest) = false := by
  obtain ⟨c, cs, rfl⟩ := List.exists_cons_of_ne_nil (goodDigits_ne_nil hd)
  simp only [matchCell, Bool.and_eq_false_iff]
  left
  simp only [lettersOf, List.cons_append]
  rw [takeWhile_cons_of_neg _ _ _ (not_upper_of_digit (goodDigits_mem hd c (by simp)))]
  decide

theorem dropWhile_eq_nil_of_all {α} (p : α → Bool) (xs : List α)
    (h : ∀ c ∈ xs, p c = true) : xs.dropWhile p = [] := by
  have := dropWhile_append_of_all p xs [] h
  simpa using this

/-- A pure letter run is not a cell: its digit group is empty. -/
theorem matchCell_false_of_letters {l : List Char} (hl : goodLetters l = true) :
    matchCell l = false := by
  simp only [matchCell, Bool.and_eq_false_iff]
  right
  simp only [digitsOf]
  rw [dropWhile_eq_nil_of_all _ l (goodLetters_mem hl)]
  decide

/-- A pure digit run is not a cell: its letter group is empty. -/
theorem matchCell_false_of_digits {d : List Char} (hd : goodDigits d = true) :
    matchCell d = false := by
  have := @matchCell_false_of_digit_head d [] hd
  simpa using this

theorem goodLetters_false_of_digits {d : List Char} (hd : goodDigits d = true) :
    goodLetters d = false := by
  obtain ⟨c, cs, rfl⟩ := List.exists_cons_of_ne_nil (goodDigits_ne_nil hd)
  exact goodLetters_false_of_digit_head (goodDigits_mem hd c (by simp))

theorem mem_rangeChar_letters {l : List Char} (hl : goodLetters l = true) :
    ∀ c ∈ l, rangeChar c = true :=
  fun c hc => rangeChar_of_upper (goodLetters_mem hl c hc)

theorem mem_rangeChar_digits {d : List Char} (hd : goodDigits d = true) :
    ∀ c ∈ d, rangeChar c = true :=
  fun c hc => rangeChar_of_digit (goodDigits_mem hd c hc)

theorem ne_colon_letters {l : List Char} (hl : goodLetters l = true) :
    ∀ c ∈ l, c ≠ ':' :=
  fun c hc => ne_colon_of_upper (goodLetters_mem hl c hc)

theorem ne_colon_digits {d : List Char} (hd : goodDigits d = true) :
    ∀ c ∈ d, c ≠ ':' :=
  fun c hc => ne_colon_of_digit (goodDigits_mem hd c hc)

theorem validate_xcore_pair {t a b : List Char} (h : splitColon t = [a, b])
    (hmc : matchCell t = false) : validate_xcore t = validate_xpair a b := by
  rw [validate_xcore, if_neg (by rw [hmc]; exact Bool.false_ne_true), h]

/-- `matchCell` fails on anything of the shape `LETTERS ++ DIGITS ++ ':' ++ _`
(the digit group would have to contain the colon). -/
theorem matchCell_false_fullshape {l1 d1 rest : List Char}
    (hl1 : goodLetters l1 = true) (hd1 : goodDigits d1 = true) :
    matchCell (l1 ++ d1 ++ ':' :: rest) = false := by
  obtain ⟨c, cs, rfl⟩ := List.exists_cons_of_ne_nil (goodDigits_ne_nil hd1)
  have hdg : digitsOf (l1 ++ (c :: cs) ++ ':' :: rest) = (c :: cs) ++ ':' :: rest := by
    rw [List.append_assoc]
    simp only [digitsOf, List.cons_append]
    rw [dropWhile_append_of_all _ l1 _ (goodLetters_mem hl1),
        dropWhile_cons_of_neg _ _ _ (not_upper_of_digit (goodDigits_mem hd1 c (by simp)))]
  simp only [matchCell, Bool.and_eq_false_iff]
  right
  rw [hdg]
  exact goodDigits_false_of_colon (by simp)

/-- `validate_xrange` on a well-formed full rectangle `COL1ROW1:COL2ROW2`
reduces to the two ordering checks from the source. -/
theorem validate_xrange_full (l1 d1 l2 d2 : List Char)
    (hl1 : goodLetters l1 = true) (hd1 : goodDigits d1 = true)
    (hl2 : goodLetters l2 = true) (hd2 : goodDigits d2 = true) :
    validate_xrange (l1 ++ d1 ++ ':' :: (l2 ++ d2)) =
      (decide (parseDigits d1 ≤ parseDigits d2) &&
       decide (column_to_number l1 ≤ column_to_number l2)) := by
  have hrc : ∀ c ∈ l1 ++ d1 ++ ':' :: (l2 ++ d2), rangeChar c = true := by
    intro c hc
    rcases List.mem_append.mp hc with hc | hc
    · rcases List.mem_append.mp hc with hc | hc
      · exact mem_rangeChar_letters hl1 c hc
      · exact mem_rangeChar_digits hd1 c hc
    · rcases List.mem_cons.mp hc with hc | hc
      · subst hc; decide
      · rcases List.mem_append.mp hc with hc | hc
        · exact mem_rangeChar_letters hl2 c hc
        · exact mem_rangeChar_digits hd2 c hc
  have hsplit : splitColon (l1 ++ d1 ++ ':' :: (l2 ++ d2)) = [l1 ++ d1, l2 ++ d2] := by
    apply splitColon_pair
    · intro c hc
      rcases List.mem_append.mp hc with hc | hc
      · exact ne_colon_letters hl1 c hc
      · exact ne_colon_digits hd1 c hc
    · intro c hc
      rcases List.mem_append.mp hc with hc | hc
      · exact ne_colon_letters hl2 c hc
      · exact ne_colon_digits hd2 c hc
  rw [validate_xrange, normalize_eq_self hrc,
      validate_xcore_pair hsplit (matchCell_false_fullshape hl1 hd1), validate_xpair,
      if_pos (by rw [matchCell_cat hl1 hd1, matchCell_cat hl2 hd2]; rfl)]
  rw [lettersOf_cat hl1 hd1, lettersOf_cat hl2 hd2,
      digitsOf_cat hl1 hd1, digitsOf_cat hl2 hd2]

/-- `validate_xrange` on a well-formed column-only range `COL1:COL2`. -/
theorem validate_xrange_cols (l1 l2 : List Char)
    (hl1 : goodLetters l1 = true) (hl2 : goodLetters l2 = true) :
    validate_xrange (l1 ++ ':' :: l2) =
      decide (column_to_number l1 ≤ column_to_number l2) := by
  have hrc : ∀ c ∈ l1 ++ ':' :: l2, rangeChar c = true := by
    intro c hc
    simp only [List.mem_append, List.mem_cons] at hc
    rcases hc with hc | hc | hc
    · exact mem_rangeChar_letters hl1 c hc
    · subst hc; decide
    · exact mem_rangeChar_letters hl2 c hc
  have hsplit : splitColon (l1 ++ ':' :: l2) = [l1, l2] :=
    splitColon_pair l1 l2 (ne_colon_letters hl1) (ne_colon_letters hl2)
  rw [validate_xrange, normalize_eq_self hrc,
      validate_xcore_pair hsplit (matchCell_false_of_colon_tail hl1), validate_xpair,
      if_neg (by rw [matchCell_false_of_letters hl1]; exact Bool.false_ne_true),
      if_pos (by rw [hl1, hl2]; rfl)]

/-- `validate_xrange` on a well-formed row-only range `ROW1:ROW2`. -/
theorem validate_xrange_rows (d1 d2 : List Char)
    (hd1 : goodDigits d1 = true) (hd2 : goodDigits d2 = true) :
    validate_xrange (d1 ++ ':' :: d2) =
      decide (parseDigits d1 ≤ parseDigits d2) := by
  have hrc : ∀ c ∈ d1 ++ ':' :: d2, rangeChar c = true := by
    intro c hc
    simp only [List.mem_append, List.mem_cons] at hc
    rcases hc with hc | hc | hc
    · exact mem_rangeChar_digits hd1 c hc
    · subst hc; decide
    · exact mem_rangeChar_digits hd2 c hc
  have hsplit : splitColon (d1 ++ ':' :: d2) = [d1, d2] :=
    splitColon_pair d1 d2 (ne_colon_digits hd1) (ne_colon_digits hd2)
  have hmc : matchCell (d1 ++ ':' :: d2) = false :=
    matchCell_false_of_digit_head hd1
  rw [validate_xrange, normalize_eq_self hrc, validate_xcore_pair hsplit hmc,
      validate_xpair,
      if_neg (by rw [matchCell_false_of_digits hd1]; exact Bool.false_ne_true),
      if_neg (by rw [goodLetters_false_of_digits hd1]; exact Bool.false_ne_true),
      if_pos (by rw [hd1, hd2]; rfl)]

/-- `validate_xrange` accepts every well-formed single cell `COLROW`. -/
theorem validate_xrange_single (l1 d1 : List Char)
    (hl1 : goodLetters l1 = true) (hd1 : goodDigits d1 = true) :
    validate_xrange (l1 ++ d1) = true := by
  have hrc : ∀ c ∈ l1 ++ d1, rangeChar c = true := by
    intro c hc
    rcases List.mem_append.mp hc with hc | hc
    · exact mem_rangeChar_letters hl1 c hc
    · exact mem_rangeChar_digits hd1 c hc
  rw [validate_xrange, normalize_eq_self hrc, validate_xcore,
      if_pos (matchCell_cat hl1 hd1)]

/-- Everything `validate_xrange` accepts is one of the four shapes (after
normalization), with ordered endpoints where the shape constrains them. -/
theorem validate_xrange_accepts_shapes (s : List Char)
    (h : validate_xrange s = true) :
    matchCell (afterBang (pyStrip (pyUpper s))) = true ∨
    ∃ a b, splitColon (afterBang (pyStrip (pyUpper s))) = [a, b] ∧
      ((matchCell a = true ∧ matchCell b = true ∧
        parseDigits (digitsOf a) ≤ parseDigits (digitsOf b) ∧
        column_to_number (lettersOf a) ≤ column_to_number (lettersOf b)) ∨
       (goodLetters a = true ∧ goodLetters b = true ∧
        column_to_number a ≤ column_to_number b) ∨
       (goodDigits a = true ∧ goodDigits b = true ∧
        parseDigits a ≤ parseDigits b)) := by
  rw [validate_xrange] at h
  set t := afterBang (pyStrip (pyUpper s)) with ht
  rw [validate_xcore] at h
  by_cases hmc : matchCell t = true
  · exact Or.inl hmc
  · rw [if_neg hmc] at h
    right
    cases hsp : splitColon t with
    | nil => rw [hsp] at h; exact absurd h Bool.false_ne_true
    | cons a rest =>
      cases rest with
      | nil => rw [hsp] at h; exact absurd h Bool.false_ne_true
      | cons b rest2 =>
        cases rest2 with
        | cons c rest3 => rw [hsp] at h; exact absurd h Bool.false_ne_true
        | nil =>
          rw [hsp] at h
          replace h : validate_xpair a b = true := h
          refine ⟨a, b, rfl, ?_⟩
          by_cases h1 : (matchCell a && matchCell b) = true
          · rw [validate_xpair, if_pos h1] at h
            simp only [Bool.and_eq_true, decide_eq_true_eq] at h h1
            exact Or.inl ⟨h1.1, h1.2, h.1, h.2⟩
          · by_cases h2 : (goodLetters a && goodLetters b) = true
            · rw [validate_xpair, if_neg h1, if_pos h2] at h
              simp only [Bool.and_eq_true] at h2
              exact Or.inr (Or.inl ⟨h2.1, h2.2, by simpa using h⟩)
            · by_cases h3 : (goodDigits a && goodDigits b) = true
              · rw [validate_xpair, if_neg h1, if_neg h2, if_pos h3] at h
                simp only [Bool.and_eq_true] at h3
                exact Or.inr (Or.inr ⟨h3.1, h3.2, by simpa using h⟩)
              · rw [validate_xpair, if_neg h1, if_neg h2, if_neg h3] at h
                exact absurd h Bool.false_ne_true

/-! ### Evaluating the grid-range functions on the built dictionary -/

theorem validate_gridDict (sr er sc ec : Int) :
    validate_grid_range (gridDict sr er sc ec) false =
      (if sr ≥ er then .ok false else if sc ≥ ec then .ok false else .ok true) :=
  rfl

theorem grid_range_to_xrange_gridDict (sr er sc ec : Int)
    (h1 : ¬ sr ≥ er) (h2 : ¬ sc ≥ ec) :
    grid_range_to_xrange (gridDict sr er sc ec) =
      .ok (number_to_column sc ++ printInt (sr + 1) ++
           ':' :: (number_to_column (ec - 1) ++ printInt er)) := by
  rw [grid_range_to_xrange, validate_gridDict, if_neg h1, if_neg h2]
  rfl

/-- `xrange_to_grid_range` on a well-formed, ordered, full rectangle builds
exactly the dictionary from the spec's conversion formulas. -/
theorem xrange_to_grid_range_full (l1 d1 l2 d2 : List Char)
    (hl1 : goodLetters l1 = true) (hd1 : goodDigits d1 = true)
    (hl2 : goodLetters l2 = true) (hd2 : goodDigits d2 = true)
    (hord1 : parseDigits d1 ≤ parseDigits d2)
    (hord2 : column_to_number l1 ≤ column_to_number l2) :
    xrange_to_grid_range (l1 ++ d1 ++ ':' :: (l2 ++ d2)) =
      .ok (some (gridDict ((parseDigits d1 : Int) - 1) (parseDigits d2)
                  (column_to_number l1) (column_to_number l2 + 1))) := by
  simp only [xrange_to_grid_range,
    validate_xrange_full l1 d1 l2 d2 hl1 hd1 hl2 hd2,
    decide_eq_true hord1, decide_eq_true hord2, Bool.and_self, Bool.not_true,
    Bool.false_eq_true, if_false,
    findall_upper_full l1 d1 l2 d2 hl1 hd1 hl2 hd2,
    findall_digit_full l1 d1 l2 d2 hl1 hd1 hl2 hd2]
  rfl

/-- Converting the grid dictionary produced from a well-formed, ordered full
rectangle back to text reproduces the original text exactly (for columns of
at most two letters). -/
theorem full_roundtrip (l1 d1 l2 d2 : List Char)
    (hl1 : goodLetters l1 = true) (hd1 : goodDigits d1 = true)
    (hl2 : goodLetters l2 = true) (hd2 : goodDigits d2 = true)
    (hlen1 : l1.length ≤ 2) (hlen2 : l2.length ≤ 2)
    (hord1 : parseDigits d1 ≤ parseDigits d2)
    (hord2 : column_to_number l1 ≤ column_to_number l2) :
    grid_range_to_xrange (gridDict ((parseDigits d1 : Int) - 1) (parseDigits d2)
        (column_to_number l1) (column_to_number l2 + 1)) =
      .ok (l1 ++ d1 ++ ':' :: (l2 ++ d2)) := by
  have hp1 : 1 ≤ parseDigits d1 := goodDigits_parse_pos hd1
  rw [grid_range_to_xrange_gridDict _ _ _ _ (by omega) (by omega)]
  have e1 : (parseDigits d1 : Int) - 1 + 1 = ((parseDigits d1 : Nat) : Int) := by ring
  have e2 : column_to_number l2 + 1 - 1 = column_to_number l2 := by ring
  rw [e1, e2, number_column_roundtrip l1 hl1 hlen1, number_column_roundtrip l2 hl2 hlen2,
      printInt_coe_nat, printInt_coe_nat, printNat_parseDigits d1 hd1,
      printNat_parseDigits d2 hd2]

/-! ### The retry loop of `ClientWrapper.execute` -/

/-- When every attempt from `att` on fails with a transient status, the loop
sleeps `2^attempt` after each non-final attempt and fails after using the
whole budget. -/
theorem executeGo_all_transient (out : Nat → AttemptOutcome γ) (n : Nat)
    (st : Nat → Int) (msg : Nat → List Char)
    (hout : ∀ k, k < n → out k = .httpError (st k) (msg k))
    (htr : ∀ k, k < n → RETRY_STATUSES.contains (st k) = true) :
    ∀ rem att, att + rem = n → 0 < rem →
      executeGo out n att rem =
        (some (Response.fail (msg (n - 1)) (some (st (n - 1))) none none), rem,
         (List.range' att (rem - 1)).map (2 ^ ·)) := by
  intro rem
  induction rem with
  | zero => intro att _ h0; omega
  | succ r ih =>
    intro att hsum _
    simp only [executeGo, hout att (by omega)]
    by_cases hr : r = 0
    · subst hr
      have hatt : att = n - 1 := by omega
      rw [if_neg (by simp only [Bool.and_eq_true, decide_eq_true_eq, not_and]; omega)]
      simp [hatt]
    · have hlt : att < n - 1 := by omega
      rw [if_pos (by rw [htr att (by omega)]; simpa using hlt)]
      rw [ih (att + 1) (by omega) (by omega)]
      have hx : r + 1 - 1 = (r - 1) + 1 := by omega
      rw [hx, List.range'_succ]
      simp

/-- When attempts `att … att+j-1` are transient and attempt `att+j` succeeds
(within budget), the loop returns the success envelope after `j+1`
invocations, having slept `2^att, …, 2^(att+j-1)`. -/
theorem executeGo_skip (out : Nat → AttemptOutcome γ) (n : Nat) :
    ∀ j rem att, att + rem = n → j < rem →
      (∀ i, i < j → ∃ s m, out (att + i) = .httpError s m ∧
        RETRY_STATUSES.contains s = true) →
      ∀ d, out (att + j) = .succeeds d →
      executeGo out n att rem =
        (some (Response.success d none), j + 1, (List.range' att j).map (2 ^ ·)) := by
  intro j
  induction j with
  | zero =>
    intro rem att hsum hlt htr d hd
    obtain ⟨r, rfl⟩ : ∃ r, rem = r + 1 := ⟨rem - 1, by omega⟩
    rw [Nat.add_zero] at hd
    simp only [executeGo, hd]
    simp
  | succ j ih =>
    intro rem att hsum hlt htr d hd
    obtain ⟨r, rfl⟩ : ∃ r, rem = r + 1 := ⟨rem - 1, by omega⟩
    obtain ⟨s, m, hout0, hs⟩ := htr 0 (by omega)
    rw [Nat.add_zero] at hout0
    simp only [executeGo, hout0]
    have hlt' : att < n - 1 := by omega
    rw [if_pos (by rw [hs]; simpa using hlt')]
    rw [ih r (att + 1) (by omega) (by omega)
        (fun i hi => by
          have h := htr (i + 1) (by omega)
          rwa [show att + (i + 1) = att + 1 + i by omega] at h)
        d (by rwa [show att + 1 + j = att + (j + 1) by omega])]
    rw [List.range'_succ]
    simp

/-- A permanent (non-retryable) status fails immediately on the first
attempt. -/
theorem executeGo_first_permanent (out : Nat → AttemptOutcome γ) (n : Nat)
    (st : Int) (msg : List Char) (hout : out 0 = .httpError st msg)
    (hst : RETRY_STATUSES.contains st = false) :
    ∀ rem, 0 < rem →
      executeGo out n 0 rem = (some (Response.fail msg (some st) none none), 1, []) := by
  intro rem h0
  obtain ⟨r, rfl⟩ : ∃ r, rem = r + 1 := ⟨rem - 1, by omega⟩
  simp only [executeGo, hout]
  rw [if_neg (by rw [hst]; simp)]

/-- A non-HTTP exception fails immediately with the generic message. -/
theorem executeGo_first_raises (out : Nat → AttemptOutcome γ) (n : Nat)
    (msg : List Char) (hout : out 0 = .raises msg) :
    ∀ rem, 0 < rem →
      executeGo out n 0 rem =
        (some (Response.fail (pystr "Erro inesperado: " ++ msg) none none none), 1, []) := by
  intro rem h0
  obtain ⟨r, rfl⟩ : ∃ r, rem = r + 1 := ⟨rem - 1, by omega⟩
  simp only [executeGo, hout]

/-! ### The `Response` invariant -/

theorem produced_invariant {γ : Type} (r : Response γ) (h : Produced r) :
    (r.ok = true → r.error = none) ∧
    (r.ok = false → r.data = none ∧ r.error.isSome = true) := by
  induction h with
  | success d det => simp [Response.success]
  | fail m c f det => simp [Response.fail]
  | reshape r d det hok _ ih =>
    refine ⟨fun _ => ih.1 hok, fun hk => ?_⟩
    exact absurd (hok.symm.trans hk) (by simp)
  | errmeta r fn hok _ ih =>
    obtain ⟨hdata, herr⟩ := ih.2 hok
    rw [setErrorMeta]
    cases herrform : r.error with
    | none => rw [herrform] at herr; simp at herr
    | some e =>
      refine ⟨fun hk => ?_, fun _ => ⟨by simpa using hdata, by simp⟩⟩
      exact absurd (hok.symm.trans hk) (by simp)

/-! ### Result-shape facts used by the envelope-discipline claim -/

@[simp]
theorem isOk_ok {ε α : Type} (a : α) : (Except.ok a : Except ε α).isOk = true := rfl

@[simp]
theorem isOk_error {ε α : Type} (e : ε) : (Except.error e : Except ε α).isOk = false := rfl

/-- C1: `validate_xrange` accepts the single-cell shape `A1` and the row-only
shape `1:10`, but `xrange_to_grid_range` raises `TypeError` on both (the
`+ [0, 0]` integer padding of the `findall` token lists reaches
`column_to_number`, which calls `len` on an `int`), instead of returning the
grid range the claim describes; only the full-rectangle shape survives
(`A1:B2` gives the documented result).  This contradicts the claimed
"fails only when `validate_xrange` fails" and the required special-casing of
each of the four shapes. -/
theorem c1_partial_shapes_raise :
    validate_xrange (pystr "A1") = true ∧
    xrange_to_grid_range (pystr "A1") = .error .typeError ∧
    validate_xrange (pystr "1:10") = true ∧
    xrange_to_grid_range (pystr "1:10") = .error .typeError ∧
    xrange_to_grid_range (pystr "A1:B2") = .ok (some (gridDict 0 2 0 2)) :=
  ⟨rfl, rfl, rfl, rfl, rfl⟩

/-- C3: the claimed roundtrip `number_to_column (column_to_number s) = s` for
column strings of length up to 3 breaks at `"AAA"` (index 702):
`number_to_column`'s while-loop update zeroes its argument after one
iteration, so it emits `'['`(`chr(91)`) instead of recursing, producing
`"[A"`.  The four documented index values do hold. -/
theorem c3_three_letter_columns_break :
    column_to_number (pystr "A") = 0 ∧ column_to_number (pystr "Z") = 25 ∧
    column_to_number (pystr "AA") = 26 ∧ column_to_number (pystr "AB") = 27 ∧
    column_to_number (pystr "AAA") = 702 ∧
    number_to_column (column_to_number (pystr "AAA")) = pystr "[A" ∧
    number_to_column (column_to_number (pystr "AAA")) ≠ pystr "AAA" := by
  refine ⟨rfl, rfl, rfl, rfl, rfl, rfl, by decide⟩

/-- C4 (counterexample): the text→grid→text roundtrip does not return
`normalize(r)` for every valid full rectangle.  With a sheet-name prefix,
`xrange_to_grid_range` (which never strips or upper-cases) scrapes the
capital `S` and the digit `1` out of `Sheet1`, builds the corrupt grid
`{0, 1, 18, 1}`, and `grid_range_to_xrange` then returns `""`.  With
3-letter columns the `number_to_column` defect yields `"[A1:[A2"`. -/
theorem c4_roundtrip_counterexamples :
    validate_xrange (pystr "Sheet1!A1:C3") = true ∧
    xrange_to_grid_range (pystr "Sheet1!A1:C3") = .ok (some (gridDict 0 1 18 1)) ∧
    grid_range_to_xrange (gridDict 0 1 18 1) = .ok [] ∧
    (Except.ok [] : Except PyErr (List Char)) ≠ .ok (pystr "A1:C3") ∧
    xrange_to_grid_range (pystr "AAA1:AAA2") = .ok (some (gridDict 0 2 702 703)) ∧
    grid_range_to_xrange (gridDict 0 2 702 703) = .ok (pystr "[A1:[A2") ∧
    pystr "[A1:[A2" ≠ pystr "AAA1:AAA2" := by
  refine ⟨rfl, rfl, rfl, by decide, rfl, rfl, by decide⟩

/-- C4 (amended): for every valid full-rectangle text range that is already
upper-case, carries no sheet-name prefix, and uses columns of at most two
letters, `grid_range_to_xrange (xrange_to_grid_range r)` returns `r` itself,
with the grid computed by the spec's offset formulas; and the particular
grid `{0,10,0,5}` renders as `A1:E10`. -/
theorem c4_roundtrip_amended (l1 d1 l2 d2 : List Char)
    (hl1 : goodLetters l1 = true) (hd1 : goodDigits d1 = true)
    (hl2 : goodLetters l2 = true) (hd2 : goodDigits d2 = true)
    (hlen1 : l1.length ≤ 2) (hlen2 : l2.length ≤ 2)
    (hord1 : parseDigits d1 ≤ parseDigits d2)
    (hord2 : column_to_number l1 ≤ column_to_number l2) :
    xrange_to_grid_range (l1 ++ d1 ++ ':' :: (l2 ++ d2)) =
      .ok (some (gridDict ((parseDigits d1 : Int) - 1) (parseDigits d2)
          (column_to_number l1) (column_to_number l2 + 1))) ∧
    grid_range_to_xrange (gridDict ((parseDigits d1 : Int) - 1) (parseDigits d2)
        (column_to_number l1) (column_to_number l2 + 1)) =
      .ok (l1 ++ d1 ++ ':' :: (l2 ++ d2)) ∧
    grid_range_to_xrange (gridDict 0 10 0 5) = .ok (pystr "A1:E10") :=
  ⟨xrange_to_grid_range_full l1 d1 l2 d2 hl1 hd1 hl2 hd2 hord1 hord2,
   full_roundtrip l1 d1 l2 d2 hl1 hd1 hl2 hd2 hlen1 hlen2 hord1 hord2,
   rfl⟩

theorem c4_roundtrip_amended_witness :
    xrange_to_grid_range (pystr "A1:B2") = .ok (some (gridDict 0 2 0 2)) ∧
    grid_range_to_xrange (gridDict 0 2 0 2) = .ok (pystr "A1:B2") := by
  have h := c4_roundtrip_amended ['A'] ['1'] ['B'] ['2'] (by decide) (by decide)
    (by decide) (by decide) (by decide) (by decide) (by decide) (by decide)
  have e : gridDict ((parseDigits ['1'] : Int) - 1) (parseDigits ['2'])
      (column_to_number ['A']) (column_to_number ['B'] + 1) = gridDict 0 2 0 2 := by
    decide
  refine ⟨?_, ?_⟩
  · have := h.1
    rw [e] at this
    exact this
  · have := h.2.1
    rw [e] at this
    exact this

/-- C5: `validate_grid_range` does **not** reject negative indices — the
`value < 0` branch only prints and keeps going — so a dictionary with
`startRowIndex = -2, endRowIndex = -1` validates as `True`, contradicting the
spec; the key-set, non-`int`, and ordering rejections do behave as claimed. -/
theorem c5_negative_indices_accepted :
    validate_grid_range (gridDict (-2) (-1) 0 1) false = .ok true ∧
    validate_grid_range (gridDict 20 10 0 5) false = .ok false ∧
    validate_grid_range (("sheetId", PVal.pint 3) :: gridDict 0 1 0 1) false = .ok false ∧
    validate_grid_range (gridDict 0 1 0 1) true = .ok false ∧
    validate_grid_range [("startRowIndex", PVal.pint 0), ("endRowIndex", PVal.pint 10),
      ("startColumnIndex", PVal.pint 0), ("endColumnIndex", PVal.pstr (pystr "x"))]
      false = .ok false :=
  ⟨rfl, rfl, rfl, rfl, rfl⟩

/-- C6 (counterexample): with attempt budget 0 the `for` loop body never runs
and `ClientWrapper.execute` returns Python `None` — not a success or failure
envelope — even for a descriptor that would succeed immediately; so the claim
does not hold for *every* attempt budget. -/
theorem c6_zero_budget_returns_none :
    ClientWrapper.execute (fun _ => (AttemptOutcome.succeeds (some ()) : AttemptOutcome Unit)) 0 =
      (none, 0, []) :=
  rfl

/-- C6 (amended): for every attempt budget `n ≥ 1`: the first successful
attempt short-circuits (after `k` transient failures it returns the success
envelope with `k+1` invocations and sleeps `2^0 … 2^(k-1)`); all-transient
failures exhaust the budget with exactly `n` invocations and exponentially
increasing sleeps; a non-retryable status fails after exactly 1 invocation
with no sleep; a non-HTTP exception fails immediately with the generic
message. -/
theorem c6_retry_policy_amended (γ : Type) (out : Nat → AttemptOutcome γ)
    (n : Nat) (hn : 1 ≤ n) :
    (∀ (k : Nat) (d : Option γ), k < n →
      (∀ i, i < k → ∃ s m, out i = .httpError s m ∧
        RETRY_STATUSES.contains s = true) →
      out k = .succeeds d →
      ClientWrapper.execute out n =
        (some (Response.success d none), k + 1, (List.range k).map (2 ^ ·))) ∧
    (∀ (st : Nat → Int) (msg : Nat → List Char),
      (∀ k, k < n → out k = .httpError (st k) (msg k)) →
      (∀ k, k < n → RETRY_STATUSES.contains (st k) = true) →
      ClientWrapper.execute out n =
        (some (Response.fail (msg (n - 1)) (some (st (n - 1))) none none), n,
         (List.range (n - 1)).map (2 ^ ·))) ∧
    (∀ (st : Int) (msg : List Char), out 0 = .httpError st msg →
      RETRY_STATUSES.contains st = false →
      ClientWrapper.execute out n =
        (some (Response.fail msg (some st) none none), 1, [])) ∧
    (∀ msg : List Char, out 0 = .raises msg →
      ClientWrapper.execute out n =
        (some (Response.fail (pystr "Erro inesperado: " ++ msg) none none none),
         1, [])) := by
  refine ⟨?_, ?_, ?_, ?_⟩
  · intro k d hk htr hd
    rw [ClientWrapper.execute, List.range_eq_range',
        executeGo_skip out n k n 0 (by omega) (by omega)
          (fun i hi => by simpa using htr i hi) d (by simpa using hd)]
  · intro st msg hout htr
    rw [ClientWrapper.execute, List.range_eq_range',
        executeGo_all_transient out n st msg hout htr n 0 (by omega) (by omega)]
  · intro st msg hout hst
    rw [ClientWrapper.execute, executeGo_first_permanent out n st msg hout hst n (by omega)]
  · intro msg hout
    rw [ClientWrapper.execute, executeGo_first_raises out n msg hout n (by omega)]

theorem c6_retry_policy_witness :
    ClientWrapper.execute
      (fun i => if i < 2 then .httpError 429 [] else (.succeeds none : AttemptOutcome Unit)) 3 =
      (some (Response.success none none), 3, [1, 2]) := by
  have h := (c6_retry_policy_amended Unit
      (fun i => if i < 2 then .httpError 429 [] else .succeeds none) 3 (by omega)).1
      2 none (by omega)
      (fun i hi => ⟨429, [], by simp [show i < 2 from hi], by decide⟩)
      (by simp)
  simpa using h

/-- C7 (counterexample): with an expired credential holding a refresh token,
the pre-flight check performs the refresh but makes **zero** attempts to
persist the refreshed credential (the token write lives only in the
interactive-login branch of `_refresh_or_login`); and with an absent
credential, or an expired one without refresh token, it does nothing at all
instead of driving the interactive re-acquisition flow. -/
theorem c7_ensure_valid_auth_counterexample :
    ensure_valid_auth { creds := some { valid := false, expired := true, refresh_token := true },
                        creds_dict := false, token_path := true } =
      { refreshes := 1, persists := 0, interactive_flows := 0 } ∧
    ensure_valid_auth { creds := none, creds_dict := true, token_path := true } = noEffects ∧
    ensure_valid_auth { creds := some { valid := false, expired := true, refresh_token := false },
                        creds_dict := true, token_path := true } = noEffects :=
  ⟨rfl, rfl, rfl⟩

/-- C7 (amended): the pre-flight validity check refreshes exactly once — with
no persist attempt and no interactive flow — precisely when an invalid,
expired credential holds a refresh token; in every other situation (valid
credential, absent credential, or invalid credential without
expired-plus-refresh-token) it performs no refresh, no persist, and no
interactive re-acquisition. -/
theorem c7_ensure_valid_auth_amended (st : ClientAuthState) :
    (∀ c, st.creds = some c → c.valid = true → ensure_valid_auth st = noEffects) ∧
    (∀ c, st.creds = some c → c.valid = false → c.expired = true →
      c.refresh_token = true →
      ensure_valid_auth st = { refreshes := 1, persists := 0, interactive_flows := 0 }) ∧
    (∀ c, st.creds = some c → c.valid = false →
      ¬(c.expired = true ∧ c.refresh_token = true) →
      ensure_valid_auth st = noEffects) ∧
    (st.creds = none → ensure_valid_auth st = noEffects) := by
  refine ⟨?_, ?_, ?_, ?_⟩
  · intro c hc hv
    simp [ensure_valid_auth, hc, hv]
  · intro c hc hv he hr
    simp [ensure_valid_auth, refresh_or_login, hc, hv, he, hr]
  · intro c hc hv hne
    have hb : (c.expired && c.refresh_token) = false := by
      cases he : c.expired <;> cases hr : c.refresh_token <;> simp_all
    simp [ensure_valid_auth, hc, hv, hb]
  · intro hc
    simp [ensure_valid_auth, hc]

theorem c7_ensure_valid_auth_witness :
    ensure_valid_auth { creds := some { valid := true, expired := false, refresh_token := true },
                        creds_dict := false, token_path := true } = noEffects :=
  (c7_ensure_valid_auth_amended _).1 _ rfl rfl

/-- C8: `validate_xrange` behaves exactly as claimed: it returns the listed
verdicts on the nine concrete examples; on every well-formed full-rectangle,
column-only and row-only string it accepts exactly the ordered ones (reversed
ranges rejected, never swapped) and accepts every single cell; and everything
it accepts is, after upper-casing/stripping/prefix removal, one of the four
shapes with ordered endpoints. -/
theorem c8_validate_xrange_shapes :
    (validate_xrange (pystr "B2:A1") = false ∧ validate_xrange (pystr "Z:A") = false ∧
     validate_xrange (pystr "10:1") = false ∧ validate_xrange (pystr "A0") = false ∧
     validate_xrange (pystr "A1:B2") = true ∧ validate_xrange (pystr "A1") = true ∧
     validate_xrange (pystr "A:Z") = true ∧ validate_xrange (pystr "1:10") = true ∧
     validate_xrange (pystr "Sheet1!A1:C3") = true) ∧
    (∀ l1 d1 l2 d2 : List Char, goodLetters l1 = true → goodDigits d1 = true →
      goodLetters l2 = true → goodDigits d2 = true →
      (validate_xrange (l1 ++ d1 ++ ':' :: (l2 ++ d2)) = true ↔
        (parseDigits d1 ≤ parseDigits d2 ∧ column_to_number l1 ≤ column_to_number l2)) ∧
      (validate_xrange (l1 ++ ':' :: l2) = true ↔
        column_to_number l1 ≤ column_to_number l2) ∧
      (validate_xrange (d1 ++ ':' :: d2) = true ↔ parseDigits d1 ≤ parseDigits d2) ∧
      validate_xrange (l1 ++ d1) = true) ∧
    (∀ s, validate_xrange s = true →
      matchCell (afterBang (pyStrip (pyUpper s))) = true ∨
      ∃ a b, splitColon (afterBang (pyStrip (pyUpper s))) = [a, b] ∧
        ((matchCell a = true ∧ matchCell b = true ∧
          parseDigits (digitsOf a) ≤ parseDigits (digitsOf b) ∧
          column_to_number (lettersOf a) ≤ column_to_number (lettersOf b)) ∨
         (goodLetters a = true ∧ goodLetters b = true ∧
          column_to_number a ≤ column_to_number b) ∨
         (goodDigits a = true ∧ goodDigits b = true ∧
          parseDigits a ≤ parseDigits b))) := by
  refine ⟨⟨rfl, rfl, rfl, rfl, rfl, rfl, rfl, rfl, rfl⟩, ?_, validate_xrange_accepts_shapes⟩
  intro l1 d1 l2 d2 hl1 hd1 hl2 hd2
  refine ⟨?_, ?_, ?_, validate_xrange_single l1 d1 hl1 hd1⟩
  · rw [validate_xrange_full l1 d1 l2 d2 hl1 hd1 hl2 hd2]
    simp
  · rw [validate_xrange_cols l1 l2 hl1 hl2]
    simp
  · rw [validate_xrange_rows d1 d2 hd1 hd2]
    simp

theorem c8_validate_xrange_witness :
    validate_xrange (['A'] ++ ':' :: ['B']) = true :=
  ((c8_validate_xrange_shapes.2.1 ['A'] ['1'] ['B'] ['2'] (by decide) (by decide)
    (by decide) (by decide)).2.1).mpr (by decide)

/-- C9: every envelope the library produces — by the two factory methods and
the pipelines' subsequent field adjustments — satisfies: `ok = True` implies
`error` is absent, and `ok = False` implies `data` is absent and `error` is
populated; so at most one of `data`/`error` is ever populated and `ok`
faithfully signals which. -/
theorem c9_response_invariant {γ : Type} (r : Response γ) (h : Produced r) :
    (r.ok = true → r.error = none) ∧
    (r.ok = false → r.data = none ∧ r.error.isSome = true) :=
  produced_invariant r h

theorem c9_response_invariant_witness :
    ((Response.success (some 0) none : Response Nat).ok = true →
      (Response.success (some 0) none : Response Nat).error = none) ∧
    ((Response.success (some 0) none : Response Nat).ok = false →
      (Response.success (some 0) none : Response Nat).data = none ∧
      (Response.success (some 0) none : Response Nat).error.isSome = true) :=
  c9_response_invariant (Response.success (some 0) none) (Produced.success (some 0) none)

/-- C10: `execute_batch` treats the queue atomically: an empty queue yields a
failure envelope with zero remote calls and the queue untouched; otherwise
exactly one remote call is made, the queue is reset to `[]` exactly when that
call succeeds, and is left unchanged when it fails. -/
theorem c10_execute_batch_queue (ρ γ : Type) (reqs : List ρ)
    (ex : List ρ → Response γ) :
    (reqs = [] →
      Spreadsheet.execute_batch reqs ex =
        (Response.fail (pystr "No request to execute.") none
          (some (pystr "Spreadsheet.execute_batch")) (some ()), reqs, 0)) ∧
    (reqs ≠ [] →
      (Spreadsheet.execute_batch reqs ex).2.2 = 1 ∧
      ((Spreadsheet.execute_batch reqs ex).2.1 = [] ↔ (ex reqs).ok = true) ∧
      ((ex reqs).ok = false → (Spreadsheet.execute_batch reqs ex).2.1 = reqs)) := by
  constructor
  · intro h
    subst h
    rfl
  · intro h
    have hne : reqs.isEmpty = false := by simpa [List.isEmpty_iff] using h
    simp only [Spreadsheet.execute_batch, hne, Bool.false_eq_true, if_false]
    rcases Bool.eq_false_or_eq_true (ex reqs).ok with hok | hok
    · simp [hok, h]
    · simp [hok, h]

theorem c10_execute_batch_witness :
    (Spreadsheet.execute_batch [()] (fun _ => (Response.success none none : Response Unit))).2.1
      = [] :=
  ((c10_execute_batch_queue Unit Unit [()]
    (fun _ => Response.success none none)).2 (by simp)).2.1.mpr rfl

end GSheets
